import Mathlib

/-!
Shallow embedding of `blackjack.py` (a heads-up blackjack game).
Python lists become `List`, Python `dict` becomes an insertion-ordered
association list with overwrite-on-existing-key, and a raised Python
exception becomes an explicit `PyErr` value.  Mutating methods are
translated to functions returning the updated value together with
`Option PyErr` (the state reached at the moment an exception is raised),
so that "no partial mutation on error" is an actual statement.
-/

/-- The raised-exception outcomes of the Python code. -/
inductive PyErr where
  /-- `AttributeError`, e.g. from `Card.__eq__` reading `other.type` on an enum member. -/
  | attributeError
  /-- `IndexError`, from `list.pop()` on an empty list. -/
  | indexError
  /-- A failed `assert` statement (`AssertionError`). -/
  | assertionError
  /-- A bare `raise Exception(...)`. -/
  | exceptionRaised
deriving DecidableEq

/-- `Card.CardType`: the 13 ranks (the program has no suits). -/
inductive CardType where
  | ACE | TWO | THREE | FOUR | FIVE | SIX | SEVEN | EIGHT | NINE
  | TEN | KING | QUEEN | JACK
deriving DecidableEq

/-- `Card`: a rank together with the numeric value passed to the constructor.
Every construction site of the repository pairs a rank with its canonical
value, but the constructor itself accepts any value, as in the source. -/
structure Card where
  type : CardType
  value : Nat
deriving DecidableEq

/-- The canonical value each construction site of the repository pairs with a rank
(`Deck.__init__` and the tests' `make_card`). -/
def cardValue : CardType → Nat
  | .ACE => 1
  | .TWO => 2
  | .THREE => 3
  | .FOUR => 4
  | .FIVE => 5
  | .SIX => 6
  | .SEVEN => 7
  | .EIGHT => 8
  | .NINE => 9
  | .TEN => 10
  | .KING => 10
  | .QUEEN => 10
  | .JACK => 10

/-- Shorthand for a canonically valued card. -/
def mk_card (t : CardType) : Card := ⟨t, cardValue t⟩

/-- The accumulating loop of `sum_cards`: for an Ace add 11 if the running
total is at most 10 and 1 otherwise; for any other card add its value. -/
def sum_cards_go : Nat → List Card → Nat
  | total, [] => total
  | total, c :: rest =>
    if c.type = CardType.ACE then
      if total > 10 then sum_cards_go (total + 1) rest
      else sum_cards_go (total + 11) rest
    else sum_cards_go (total + c.value) rest

/-- `sum_cards(cards)`: iterate over `reversed(sorted(cards, key=value))`
(Python's sort is stable and ascending, so this is descending by value)
accumulating with `sum_cards_go`. -/
def sum_cards (cards : List Card) : Nat :=
  sum_cards_go 0 (List.insertionSort (fun a b => a.value ≤ b.value) cards).reverse

/-- Models the Python expression `ct in hand` where `hand` holds `Card`
objects: list membership compares with `==`, which dispatches to
`Card.__eq__(card, ct)`, whose body `self.type == other.type` reads the
attribute `type` of the enum member `ct` — an attribute enum members do not
have.  Hence the first comparison raises `AttributeError`; only on an empty
list does the test complete (returning `False`). -/
def cardTypeInHand (_ct : CardType) (hand : List Card) : Except PyErr Bool :=
  match hand with
  | [] => .ok false
  | _ :: _ => .error .attributeError

/-- `is_hand_blackjack(hand)`: returns `False` outright for more than two
cards; otherwise evaluates `ACE in hand and (TEN in hand or KING in hand or
QUEEN in hand or JACK in hand)` with Python short-circuiting. -/
def is_hand_blackjack (hand : List Card) : Except PyErr Bool := do
  if hand.length > 2 then
    return false
  else
    let hasAce ← cardTypeInHand CardType.ACE hand
    if hasAce then
      let hasTen ← cardTypeInHand CardType.TEN hand
      if hasTen then
        return true
      else
        let hasKing ← cardTypeInHand CardType.KING hand
        if hasKing then
          return true
        else
          let hasQueen ← cardTypeInHand CardType.QUEEN hand
          if hasQueen then
            return true
          else
            let hasJack ← cardTypeInHand CardType.JACK hand
            if hasJack then return true else return false
    else
      return false

/-- `Player`: a name and a hand (a Python list of cards). -/
structure Player where
  name : String
  hand : List Card
deriving DecidableEq

/-- Placeholder player used as the default of `List.getD`; in the game the
current-player reference is always a member of the player list, so the
default is never selected in a reachable state. -/
def dummy_player : Player := ⟨"", []⟩

/-- `Player.deal_initial_cards(card1, card2)`: raises when the hand is
non-empty (leaving it unchanged), else appends `card1` then `card2`. -/
def Player.deal_initial_cards (p : Player) (card1 card2 : Card) :
    Player × Option PyErr :=
  if p.hand ≠ [] then (p, some .exceptionRaised)
  else ({ p with hand := p.hand ++ [card1, card2] }, none)

/-- `Player.hit(card)`: appends the card to the hand. -/
def Player.hit (p : Player) (card : Card) : Player :=
  { p with hand := p.hand ++ [card] }

/-- `Player.is_bust()`: the hand total exceeds 21. -/
def Player.is_bust (p : Player) : Bool :=
  sum_cards p.hand > 21

/-- The literal card list of `Deck.__init__` before replication: one
canonically valued card of each of the 13 ranks. -/
def base_deck : List Card :=
  [mk_card .ACE, mk_card .TWO, mk_card .THREE, mk_card .FOUR, mk_card .FIVE,
   mk_card .SIX, mk_card .SEVEN, mk_card .EIGHT, mk_card .NINE, mk_card .TEN,
   mk_card .KING, mk_card .QUEEN, mk_card .JACK]

/-- `Deck.__init__(num_decks)` builds `base_deck * num_decks` (Python list
replication) and then shuffles in place.  The shuffle is a uniform random
permutation and is not modelled; every claim below about the deck is
invariant under permutation, so it is stated over `deck_init` and all of its
permutations. -/
def deck_init (num_decks : Nat) : List Card :=
  (List.replicate num_decks base_deck).flatten

/-- `Deck.draw_card()` is `self.cards.pop()`: removes and returns the last
element of the card list, raising `IndexError` (without mutation) when the
list is empty. -/
def draw_card (deck : List Card) : Except PyErr (Card × List Card) :=
  match deck.getLast? with
  | none => .error .indexError
  | some c => .ok (c, deck.dropLast)

/-- The loop of `_play_dealers_turn`, acting on the deck in draw order
(the reverse of the Python list, whose `pop()` takes the last element):
while the dealer's total is strictly below 17, draw one card and append it
to the dealer's hand; a draw from an empty deck raises `IndexError`, with
the state as mutated so far. -/
def dealer_loop : List Card → List Card → List Card × List Card × Option PyErr
  | hand, [] =>
    if sum_cards hand < 17 then (hand, [], some .indexError) else (hand, [], none)
  | hand, c :: rest =>
    if sum_cards hand < 17 then dealer_loop (hand ++ [c]) rest
    else (hand, c :: rest, none)

/-- `_play_dealers_turn` on a hand and the Python-ordered deck: run
`dealer_loop` on the deck in draw order and restore the Python ordering of
the remainder. -/
def play_dealers_turn (hand deck : List Card) :
    List Card × List Card × Option PyErr :=
  let r := dealer_loop hand deck.reverse
  (r.1, r.2.1.reverse, r.2.2)

/-- The state of a `BlackJack` object.  The Python field `_current_player`
holds a reference to a member of `_players`; since `Player` inherits
identity equality, `list.index` in `_next_player` recovers exactly that
member's position, so the reference is modelled by its index
(`none` encodes the Python `None`, i.e. the game has ended). -/
structure GameState where
  players : List Player
  dealer : Player
  deck : List Card
  currentIdx : Option Nat
deriving DecidableEq

/-- Deal two freshly drawn cards to one participant
(`player.deal_initial_cards(self._deck.draw_card(), self._deck.draw_card())`,
arguments evaluated left to right). -/
def dealOne (p : Player) (deck : List Card) : Except PyErr (Player × List Card) :=
  match draw_card deck with
  | .error e => .error e
  | .ok (c1, d1) =>
    match draw_card d1 with
    | .error e => .error e
    | .ok (c2, d2) =>
      match p.deal_initial_cards c1 c2 with
      | (p', none) => .ok (p', d2)
      | (_, some e) => .error e

/-- The initial-deal loop of `BlackJack.__init__` over a list of
participants, in order. -/
def dealAll : List Player → List Card → Except PyErr (List Player × List Card)
  | [], deck => .ok ([], deck)
  | p :: ps, deck =>
    match dealOne p deck with
    | .error e => .error e
    | .ok (p', deck') =>
      match dealAll ps deck' with
      | .error e => .error e
      | .ok (ps', deck'') => .ok (p' :: ps', deck'')

/-- `BlackJack.__init__(player_names, deck)`: asserts the name list is
non-empty, creates the players and the dealer with empty hands, sets the
current player to the first player, and deals two cards to every player and
then the dealer.  A raise during construction yields no object, hence the
`Except` result. -/
def blackjack_init (player_names : List String) (deck : List Card) :
    Except PyErr GameState :=
  if player_names.isEmpty then .error .assertionError
  else
    match dealAll (player_names.map (fun n => Player.mk n [])) deck with
    | .error e => .error e
    | .ok (players', deck') =>
      match dealOne ⟨"Dealer", []⟩ deck' with
      | .error e => .error e
      | .ok (dealer', deck'') => .ok ⟨players', dealer', deck'', some 0⟩

/-- `game_finished()`: the current player is `None`. -/
def game_finished (s : GameState) : Bool :=
  s.currentIdx.isNone

/-- `get_current_player_name()`: asserts the game has not ended, then
returns the current player's name (read-only). -/
def get_current_player_name (s : GameState) : Except PyErr String :=
  match s.currentIdx with
  | none => .error .assertionError
  | some i => .ok (s.players.getD i dummy_player).name

/-- `_next_player()`: if the current player is the last one, run the
dealer's turn and then set the current player to `None` (the assignment is
skipped when the dealer's turn raises); otherwise advance the index by
one. -/
def next_player (s : GameState) : GameState × Option PyErr :=
  match s.currentIdx with
  | none => (s, some .assertionError)
  | some i =>
    if i = s.players.length - 1 then
      let r := play_dealers_turn s.dealer.hand s.deck
      let s' := { s with dealer := { s.dealer with hand := r.1 }, deck := r.2.1 }
      match r.2.2 with
      | some e => (s', some e)
      | none => ({ s' with currentIdx := none }, none)
    else
      ({ s with currentIdx := some (i + 1) }, none)

/-- `hit_current_player()`: asserts the game has not ended, draws a card,
appends it to the current player's hand, and advances the turn exactly when
that player is now bust. -/
def hit_current_player (s : GameState) : GameState × Option PyErr :=
  match s.currentIdx with
  | none => (s, some .assertionError)
  | some i =>
    match draw_card s.deck with
    | .error e => (s, some e)
    | .ok (c, deck') =>
      let p' := (s.players.getD i dummy_player).hit c
      let s' := { s with players := s.players.set i p', deck := deck' }
      if p'.is_bust then next_player s' else (s', none)

/-- `stand_current_player()`: asserts the game has not ended, then advances
the turn. -/
def stand_current_player (s : GameState) : GameState × Option PyErr :=
  match s.currentIdx with
  | none => (s, some .assertionError)
  | some _ => next_player s

/-- Assignment `d[k] = v` on a Python dict modelled as an insertion-ordered
association list: overwrite in place if the key is present, else append. -/
def dictSet : List (String × α) → String → α → List (String × α)
  | [], k, v => [(k, v)]
  | (k', v') :: rest, k, v =>
    if k' = k then (k, v) :: rest else (k', v') :: dictSet rest k v

/-- Lookup `d[k]` on the dict model. -/
def dictGet : List (String × α) → String → Option α
  | [], _ => none
  | (k', v) :: rest, k => if k' = k then some v else dictGet rest k

/-- The dict comprehension of `get_game_state` over `self._players`:
keys are player names, so two players with one name collapse to one entry,
the later player's data overwriting the earlier player's. -/
def build_players_dict (ps : List Player) : List (String × (List Card × Bool)) :=
  ps.foldl (fun d p => dictSet d p.name (p.hand, p.is_bust)) []

/-- The dictionary returned by `get_game_state()`. -/
structure Snapshot where
  finished : Bool
  current_player : Option String
  players : List (String × (List Card × Bool))
  dealer : List Card × Bool
deriving DecidableEq

/-- `get_game_state()`. -/
def get_game_state (s : GameState) : Snapshot :=
  { finished := game_finished s
    current_player := s.currentIdx.map (fun i => (s.players.getD i dummy_player).name)
    players := build_players_dict s.players
    dealer := (s.dealer.hand, s.dealer.is_bust) }

/-- The per-player branch of `get_game_result`: `BUST` for a bust player,
`WON` against a bust dealer, strict total comparison otherwise, and on equal
totals the natural-blackjack tie-break; the calls to `is_hand_blackjack`
(player's hand first, then the dealer's) may raise. -/
def player_result (p dealer : Player) : Except PyErr String :=
  if p.is_bust then .ok "BUST"
  else if dealer.is_bust then .ok "WON"
  else
    let playerSum := sum_cards p.hand
    let dealerSum := sum_cards dealer.hand
    if playerSum > dealerSum then .ok "WON"
    else if dealerSum > playerSum then .ok "LOST"
    else
      match is_hand_blackjack p.hand with
      | .error e => .error e
      | .ok pb =>
        match is_hand_blackjack dealer.hand with
        | .error e => .error e
        | .ok db =>
          if pb && db then .ok "PUSH"
          else if pb then .ok "WON"
          else if db then .ok "LOST"
          else .ok "PUSH"

/-- The accumulation loop of `get_game_result` over the players, filling a
dict keyed by player name. -/
def result_fold (dealer : Player) :
    List Player → List (String × String) → Except PyErr (List (String × String))
  | [], acc => .ok acc
  | p :: ps, acc =>
    match player_result p dealer with
    | .error e => .error e
    | .ok r => result_fold dealer ps (dictSet acc p.name r)

/-- `get_game_result()`: asserts the game has ended, then builds the
name-keyed result dict. -/
def get_game_result (s : GameState) : Except PyErr (List (String × String)) :=
  match s.currentIdx with
  | some _ => .error .assertionError
  | none => result_fold s.dealer s.players []

/-- Spec-side definition, following the spec's words: the multiset of sums
obtainable by valuing each Ace as 1 or 11 and every other card at its fixed
value. -/
def handValuations (hand : List Card) : List Nat :=
  hand.foldr
    (fun c acc =>
      if c.type = CardType.ACE then acc.map (· + 1) ++ acc.map (· + 11)
      else acc.map (· + c.value))
    [0]

/-- Spec-side definition, following the spec's words: the standard best
blackjack total — the maximum valuation not exceeding 21, or the minimum
valuation when every valuation exceeds 21. -/
def standardBestTotal (hand : List Card) : Nat :=
  let vs := handValuations hand
  match (vs.filter (fun v => v ≤ 21)).max? with
  | some m => m
  | none => vs.min?.getD 0

example : standardBestTotal [mk_card .TEN, mk_card .ACE, mk_card .ACE] = 12 := by decide
example : standardBestTotal [mk_card .NINE, mk_card .ACE] = 20 := by decide
example : standardBestTotal [mk_card .NINE, mk_card .ACE, mk_card .TWO] = 12 := by decide

example : sum_cards [mk_card .NINE, mk_card .ACE] = 20 := by decide
example : sum_cards [mk_card .NINE, mk_card .ACE, mk_card .TWO] = 12 := by decide
example : sum_cards [mk_card .TEN, mk_card .ACE, mk_card .ACE] = 22 := by decide
example : is_hand_blackjack [mk_card .ACE, mk_card .KING] = .error .attributeError := rfl
example : is_hand_blackjack [mk_card .FIVE, mk_card .SIX, mk_card .KING] = .ok false := rfl
example : is_hand_blackjack [] = .ok false := rfl

/-! ### Helper lemmas -/

theorem sum_cards_go_no_ace (l : List Card) (t : Nat)
    (h : ∀ c ∈ l, c.type ≠ CardType.ACE) :
    sum_cards_go t l = t + (l.map Card.value).sum := by
  induction l generalizing t with
  | nil => simp [sum_cards_go]
  | cons c rest ih =>
    have hc : c.type ≠ CardType.ACE := h c (by simp)
    rw [sum_cards_go]
    simp only [hc, if_false]
    rw [ih _ (fun d hd => h d (List.mem_cons_of_mem _ hd))]
    simp [Nat.add_assoc]

theorem sum_cards_no_ace (l : List Card) (h : ∀ c ∈ l, c.type ≠ CardType.ACE) :
    sum_cards l = (l.map Card.value).sum := by
  unfold sum_cards
  have hperm :
      (List.insertionSort (fun a b => a.value ≤ b.value) l).reverse.Perm l :=
    (List.reverse_perm _).trans (List.perm_insertionSort _ l)
  rw [sum_cards_go_no_ace _ 0 (fun c hc => h c (hperm.mem_iff.mp hc))]
  simpa using (hperm.map Card.value).sum_eq

/-! ### Claim C1 -/

/-- C1: in `get_game_result`, the equal-total branch does not resolve the
claimed tie-break; `is_hand_blackjack` raises `AttributeError` on any one- or
two-card hand.  First scenario: player `[ACE, KING]` versus dealer
`[ACE, QUEEN]` (the claim says `PUSH`); second scenario: a player 3-card 21
`[FIVE, SIX, KING]` versus the dealer's natural `[ACE, QUEEN]` (the claim
says `LOST`).  In both finished games `get_game_result` raises instead of
returning a result dict. -/
theorem c1_tie_break_raises :
    (blackjack_init ["p"]
          [mk_card .QUEEN, mk_card .ACE, mk_card .KING, mk_card .ACE]).map
        (fun s0 => get_game_result (stand_current_player s0).1)
      = .ok (.error .attributeError)
    ∧ (blackjack_init ["p"]
          [mk_card .KING, mk_card .QUEEN, mk_card .ACE, mk_card .SIX,
           mk_card .FIVE]).map
        (fun s0 =>
          get_game_result (stand_current_player (hit_current_player s0).1).1)
      = .ok (.error .attributeError) :=
  ⟨rfl, rfl⟩

/-! ### Claim C2 -/

/-- C2: `sum_cards` does not compute the standard best blackjack total.  On
the hand `[TEN, ACE, ACE]` the code's greedy pass (sorted descending, an Ace
adds 11 whenever the running total is at most 10) yields 22 — a bust — while
the standard best total, the maximum Ace valuation not exceeding 21, is 12. -/
theorem c2_sum_cards_not_best_total :
    sum_cards [mk_card .TEN, mk_card .ACE, mk_card .ACE] = 22
    ∧ standardBestTotal [mk_card .TEN, mk_card .ACE, mk_card .ACE] = 12 := by
  exact ⟨by decide, by decide⟩

/-! ### Claim C3 -/

/-- C3: `is_hand_blackjack` is not a boolean predicate on one- and two-card
hands: the membership test `Card.CardType.ACE in hand` raises
`AttributeError` on any non-empty hand of at most two cards (so the natural
hand `[ACE, KING]` raises instead of returning true, and `[TWO, THREE]`
raises instead of returning false), while a 3-card 21 does return false. -/
theorem c3_blackjack_check_raises :
    is_hand_blackjack [mk_card .ACE, mk_card .KING] = .error .attributeError
    ∧ is_hand_blackjack [mk_card .TWO, mk_card .THREE] = .error .attributeError
    ∧ is_hand_blackjack [mk_card .FIVE, mk_card .SIX, mk_card .KING] = .ok false :=
  ⟨rfl, rfl, rfl⟩

/-! ### Claim C4 -/

/-- C4 is false as stated: appending the non-Ace card `TWO` to the hand
`[NINE, ACE]` drops the total from 20 (soft) to 12 (hard). -/
theorem c4_counterexample :
    ¬ (sum_cards [mk_card .NINE, mk_card .ACE]
        ≤ sum_cards ([mk_card .NINE, mk_card .ACE] ++ [mk_card .TWO])) := by
  decide

/-- C4 (amended): for every hand containing no Ace and every non-Ace card,
the hand total is monotonically non-decreasing when that card is appended. -/
theorem c4_no_ace_monotonic (hand : List Card) (c : Card)
    (h1 : ∀ d ∈ hand, d.type ≠ CardType.ACE) (h2 : c.type ≠ CardType.ACE) :
    sum_cards hand ≤ sum_cards (hand ++ [c]) := by
  rw [sum_cards_no_ace hand h1,
      sum_cards_no_ace (hand ++ [c])
        (by
          intro d hd
          rcases List.mem_append.mp hd with hd | hd
          · exact h1 d hd
          · simpa [List.mem_singleton.mp hd] using h2)]
  simp

/-- Witness for the amended C4 at a concrete hand and card. -/
theorem c4_no_ace_monotonic_witness :
    sum_cards [mk_card .NINE] ≤ sum_cards ([mk_card .NINE] ++ [mk_card .TWO]) :=
  c4_no_ace_monotonic [mk_card .NINE] (mk_card .TWO) (by decide) (by decide)

/-! ### Claim C7 -/

/-- C7 is false as stated: the default card source built by
`Deck.__init__(num_decks=2)` does not hold 104 cards. -/
theorem c7_counterexample : ¬ ((deck_init 2).length = 104) := by decide

/-- C7 (amended): the default card source holds 26 cards — two copies of
each of the 13 ranks — before any card is drawn; the statement is over every
permutation of the built list, hence unaffected by the unmodelled shuffle. -/
theorem c7_default_deck_size (l : List Card) (h : l.Perm (deck_init 2)) :
    l.length = 26 := by
  rw [h.length_eq]
  decide

/-- Witness for the amended C7 at the unshuffled default deck. -/
theorem c7_default_deck_size_witness : (deck_init 2).length = 26 :=
  c7_default_deck_size (deck_init 2) (List.Perm.refl _)

/-! ### Claim C8 -/

/-- C8: every operation validates its precondition first and a failing call
leaves the state unchanged: `hit_current_player`, `stand_current_player` and
`get_current_player_name` fail with `AssertionError` after the game has
ended, returning the state untouched; `get_game_result` fails with
`AssertionError` while the game is still active; dealing initial cards into
a non-empty hand raises, leaving the hand untouched; and construction with
an empty player-name list fails the `assert` before touching the deck. -/
theorem c8_precondition_validation (s s2 : GameState) (p : Player)
    (c1 c2 : Card) (d : List Card)
    (hend : s.currentIdx = none) (hact : s2.currentIdx ≠ none)
    (hp : p.hand ≠ []) :
    hit_current_player s = (s, some .assertionError)
    ∧ stand_current_player s = (s, some .assertionError)
    ∧ get_current_player_name s = .error .assertionError
    ∧ get_game_result s2 = .error .assertionError
    ∧ p.deal_initial_cards c1 c2 = (p, some .exceptionRaised)
    ∧ blackjack_init [] d = .error .assertionError := by
  refine ⟨?_, ?_, ?_, ?_, ?_, ?_⟩
  · simp [hit_current_player, hend]
  · simp [stand_current_player, hend]
  · simp [get_current_player_name, hend]
  · rcases h : s2.currentIdx with _ | i
    · exact absurd h hact
    · simp [get_game_result, h]
  · simp [Player.deal_initial_cards, hp]
  · simp [blackjack_init]

/-- Witness for C8 at concrete states: a one-player ended state, the same
state still active, a player with a dealt hand, and an arbitrary deck. -/
theorem c8_precondition_validation_witness :
    hit_current_player ⟨[⟨"p", [mk_card .TWO, mk_card .THREE]⟩],
        ⟨"Dealer", [mk_card .KING, mk_card .NINE]⟩, [], none⟩
      = (⟨[⟨"p", [mk_card .TWO, mk_card .THREE]⟩],
          ⟨"Dealer", [mk_card .KING, mk_card .NINE]⟩, [], none⟩,
         some .assertionError)
    ∧ stand_current_player ⟨[⟨"p", [mk_card .TWO, mk_card .THREE]⟩],
        ⟨"Dealer", [mk_card .KING, mk_card .NINE]⟩, [], none⟩
      = (⟨[⟨"p", [mk_card .TWO, mk_card .THREE]⟩],
          ⟨"Dealer", [mk_card .KING, mk_card .NINE]⟩, [], none⟩,
         some .assertionError)
    ∧ get_current_player_name ⟨[⟨"p", [mk_card .TWO, mk_card .THREE]⟩],
        ⟨"Dealer", [mk_card .KING, mk_card .NINE]⟩, [], none⟩
      = .error .assertionError
    ∧ get_game_result ⟨[⟨"p", [mk_card .TWO, mk_card .THREE]⟩],
        ⟨"Dealer", [mk_card .KING, mk_card .NINE]⟩, [], some 0⟩
      = .error .assertionError
    ∧ Player.deal_initial_cards ⟨"p", [mk_card .TWO]⟩ (mk_card .FOUR) (mk_card .FIVE)
      = (⟨"p", [mk_card .TWO]⟩, some .exceptionRaised)
    ∧ blackjack_init [] [mk_card .ACE] = .error .assertionError :=
  c8_precondition_validation
    ⟨[⟨"p", [mk_card .TWO, mk_card .THREE]⟩],
     ⟨"Dealer", [mk_card .KING, mk_card .NINE]⟩, [], none⟩
    ⟨[⟨"p", [mk_card .TWO, mk_card .THREE]⟩],
     ⟨"Dealer", [mk_card .KING, mk_card .NINE]⟩, [], some 0⟩
    ⟨"p", [mk_card .TWO]⟩ (mk_card .FOUR) (mk_card .FIVE) [mk_card .ACE]
    rfl (by decide) (by decide)

/-! ### Claim C6 -/

theorem dealer_loop_spec (rdeck : List Card) : ∀ hand : List Card,
    (∃ t, (dealer_loop hand rdeck).1 = hand ++ t)
    ∧ ((dealer_loop hand rdeck).2.2 = none →
        17 ≤ sum_cards (dealer_loop hand rdeck).1)
    ∧ ((dealer_loop hand rdeck).2.2 ≠ none →
        (dealer_loop hand rdeck).2.2 = some .indexError
        ∧ (dealer_loop hand rdeck).2.1 = [])
    ∧ (17 ≤ sum_cards hand → dealer_loop hand rdeck = (hand, rdeck, none)) := by
  induction rdeck with
  | nil =>
    intro hand
    by_cases h : sum_cards hand < 17
    · refine ⟨⟨[], by simp [dealer_loop, h]⟩, ?_, ?_, ?_⟩
      · intro hnone
        simp [dealer_loop, h] at hnone
      · intro _
        simp [dealer_loop, h]
      · intro h17
        exact absurd h (Nat.not_lt.mpr h17)
    · refine ⟨⟨[], by simp [dealer_loop, h]⟩, ?_, ?_, ?_⟩
      · intro _
        simpa [dealer_loop, h] using Nat.not_lt.mp h
      · intro hne
        simp [dealer_loop, h] at hne
      · intro _
        simp [dealer_loop, h]
  | cons c rest ih =>
    intro hand
    by_cases h : sum_cards hand < 17
    · have hstep : dealer_loop hand (c :: rest) = dealer_loop (hand ++ [c]) rest := by
        simp [dealer_loop, h]
      obtain ⟨⟨t, ht⟩, hok, herr, _⟩ := ih (hand ++ [c])
      refine ⟨⟨[c] ++ t, ?_⟩, ?_, ?_, ?_⟩
      · rw [hstep, ht, List.append_assoc]
      · intro hnone
        rw [hstep] at hnone ⊢
        exact hok hnone
      · intro hne
        rw [hstep] at hne ⊢
        exact herr hne
      · intro h17
        exact absurd h (Nat.not_lt.mpr h17)
    · refine ⟨⟨[], by simp [dealer_loop, h]⟩, ?_, ?_, ?_⟩
      · intro _
        simpa [dealer_loop, h] using Nat.not_lt.mp h
      · intro hne
        simp [dealer_loop, h] at hne
      · intro _
        simp [dealer_loop, h]

/-- C6: dealer automation.  The loop appends cards to the dealer's hand
while its total is strictly below 17; when it completes without raising the
dealer's total is at least 17 (a bust total in particular is above 17); it
raises `IndexError` exactly by exhausting the card source; a hand already at
17 or more draws nothing (so the dealer, deterministic function of its hand
and the remaining source, never draws again once done); at the game level
the automation runs at the turn transition of the last player — a stand
there installs exactly the automation's hand and then ends the game — a
stand elsewhere leaves the dealer and the deck untouched, and once the game
has ended every move fails without drawing. -/
theorem c6_dealer_automation (hand deck : List Card) (s : GameState) (i : Nat) :
    ((play_dealers_turn hand deck).2.2 = none →
        17 ≤ sum_cards (play_dealers_turn hand deck).1)
    ∧ ((play_dealers_turn hand deck).2.2 ≠ none →
        (play_dealers_turn hand deck).2.2 = some .indexError
        ∧ (play_dealers_turn hand deck).2.1 = [])
    ∧ (∃ t, (play_dealers_turn hand deck).1 = hand ++ t)
    ∧ (17 ≤ sum_cards hand → play_dealers_turn hand deck = (hand, deck, none))
    ∧ (s.currentIdx = none →
        hit_current_player s = (s, some .assertionError)
        ∧ stand_current_player s = (s, some .assertionError))
    ∧ (s.currentIdx = some i → i = s.players.length - 1 →
        (stand_current_player s).1.dealer.hand
          = (play_dealers_turn s.dealer.hand s.deck).1
        ∧ ((stand_current_player s).2 = none →
            (stand_current_player s).1.currentIdx = none))
    ∧ (s.currentIdx = some i → i ≠ s.players.length - 1 →
        (stand_current_player s).1.dealer = s.dealer
        ∧ (stand_current_player s).1.deck = s.deck) := by
  obtain ⟨⟨t, ht⟩, hok, herr, hstop⟩ := dealer_loop_spec deck.reverse hand
  refine ⟨?_, ?_, ⟨t, ht⟩, ?_, ?_, ?_, ?_⟩
  · intro hnone
    exact hok hnone
  · intro hne
    obtain ⟨he, hd⟩ := herr hne
    exact ⟨he, by simp [play_dealers_turn, play_dealers_turn] at hd ⊢; simp [hd]⟩
  · intro h17
    have := hstop h17
    simp [play_dealers_turn, this]
  · intro hend
    exact ⟨by simp [hit_current_player, hend], by simp [stand_current_player, hend]⟩
  · intro hcur hlast
    constructor
    · simp [stand_current_player, hcur, next_player, hlast]
      rcases hplay : (play_dealers_turn s.dealer.hand s.deck).2.2 with _ | e <;>
        simp [hplay]
    · intro hnone
      simp [stand_current_player, hcur, next_player, hlast] at hnone ⊢
      rcases hplay : (play_dealers_turn s.dealer.hand s.deck).2.2 with _ | e <;>
        simp [hplay] at hnone ⊢
  · intro hcur hnotlast
    refine ⟨?_, ?_⟩ <;> simp [stand_current_player, hcur, next_player, hnotlast]

/-- Witness for C6: a dealer already holding 17 draws nothing and the turn
ends, and moves on an ended game fail. -/
theorem c6_dealer_automation_witness :
    play_dealers_turn [mk_card .KING, mk_card .SEVEN] [mk_card .FIVE]
      = ([mk_card .KING, mk_card .SEVEN], [mk_card .FIVE], none)
    ∧ hit_current_player ⟨[⟨"p", []⟩], ⟨"Dealer", []⟩, [], none⟩
      = (⟨[⟨"p", []⟩], ⟨"Dealer", []⟩, [], none⟩, some .assertionError) :=
  ⟨(c6_dealer_automation [mk_card .KING, mk_card .SEVEN] [mk_card .FIVE]
      ⟨[⟨"p", []⟩], ⟨"Dealer", []⟩, [], none⟩ 0).2.2.2.1 (by decide),
   ((c6_dealer_automation [] [] ⟨[⟨"p", []⟩], ⟨"Dealer", []⟩, [], none⟩ 0).2.2.2.2.1
      rfl).1⟩

/-! ### Initial-deal inversion helpers -/

theorem dealOne_ok (p p' : Player) (deck deck' : List Card)
    (h : dealOne p deck = .ok (p', deck')) :
    p'.name = p.name ∧ ∃ c1 c2, p'.hand = p.hand ++ [c1, c2] := by
  unfold dealOne at h
  split at h
  · simp at h
  · next c1 d1 _ =>
    split at h
    · simp at h
    · next c2 d2 _ =>
      unfold Player.deal_initial_cards at h
      by_cases hp : p.hand = []
      · simp [hp] at h
        obtain ⟨hp', _⟩ := h
        subst hp'
        exact ⟨rfl, c1, c2, by simp [hp]⟩
      · simp [hp] at h

theorem forall2_mem_right {α β : Type} {R : α → β → Prop} :
    ∀ {l₁ : List α} {l₂ : List β},
      List.Forall₂ R l₁ l₂ → ∀ b ∈ l₂, ∃ a ∈ l₁, R a b := by
  intro l₁ l₂ h
  induction h with
  | nil => simp
  | cons hr htail ih =>
    intro b hb
    rcases List.mem_cons.mp hb with hb | hb
    · exact ⟨_, List.mem_cons_self _ _, hb ▸ hr⟩
    · obtain ⟨a, ha, har⟩ := ih b hb
      exact ⟨a, List.mem_cons_of_mem _ ha, har⟩

theorem dealAll_ok :
    ∀ (ps : List Player) (deck : List Card) (ps' : List Player) (deck' : List Card),
      dealAll ps deck = .ok (ps', deck') →
      List.Forall₂
        (fun p q => q.name = p.name ∧ ∃ c1 c2, q.hand = p.hand ++ [c1, c2]) ps ps' := by
  intro ps
  induction ps with
  | nil =>
    intro deck ps' deck' h
    simp [dealAll] at h
    simp [h.1]
  | cons p ps ih =>
    intro deck ps' deck' h
    unfold dealAll at h
    split at h
    · simp at h
    · next p1 d1 h1 =>
      split at h
      · simp at h
      · next ps1 d2 h2 =>
        have hps' : ps' = p1 :: ps1 := by
          cases h
          rfl
        subst hps'
        exact List.Forall₂.cons (dealOne_ok p p1 deck d1 h1) (ih d1 ps1 d2 h2)

theorem blackjack_init_ok (names : List String) (deck : List Card) (s : GameState)
    (h : blackjack_init names deck = .ok s) :
    s.currentIdx = some 0
    ∧ (∀ p ∈ s.players, p.hand.length = 2)
    ∧ s.dealer.hand.length = 2
    ∧ s.players.length = names.length := by
  unfold blackjack_init at h
  split at h
  · simp at h
  · split at h
    · simp at h
    · next ps' d' h1 =>
      split at h
      · simp at h
      · next dealer' d'' h2 =>
        have hs : s = ⟨ps', dealer', d'', some 0⟩ := by
          cases h
          rfl
        subst hs
        have hall := dealAll_ok _ deck ps' d' h1
        refine ⟨rfl, ?_, ?_, ?_⟩
        · intro q hq
          obtain ⟨p, hp, hname, c1, c2, hhand⟩ := forall2_mem_right hall q hq
          obtain ⟨n, hn, hpn⟩ := List.mem_map.mp hp
          simp [hhand, ← hpn]
        · obtain ⟨hname, c1, c2, hhand⟩ := dealOne_ok _ _ _ _ h2
          simp [hhand]
        · simpa using hall.length_eq.symm

/-! ### Turn-transition case lemmas -/

theorem next_player_cases (s : GameState) (i : Nat) (h : s.currentIdx = some i) :
    (next_player s).1.players = s.players
    ∧ ((next_player s).2 = none →
        (next_player s).1.currentIdx
          = if i = s.players.length - 1 then none else some (i + 1))
    ∧ ((next_player s).2 ≠ none → (next_player s).1.currentIdx = some i) := by
  simp only [next_player, h]
  by_cases hlast : i = s.players.length - 1
  · rcases hplay : (play_dealers_turn s.dealer.hand s.deck).2.2 with _ | e <;>
      simp [hlast, hplay, h]
  · simp [hlast]

theorem hit_cases (s : GameState) (i : Nat) (c : Card) (deck' : List Card)
    (h : s.currentIdx = some i) (hdraw : draw_card s.deck = .ok (c, deck')) :
    hit_current_player s
      = (if ((s.players.getD i dummy_player).hit c).is_bust then
          next_player
            ⟨s.players.set i ((s.players.getD i dummy_player).hit c),
             s.dealer, deck', some i⟩
        else
          (⟨s.players.set i ((s.players.getD i dummy_player).hit c),
            s.dealer, deck', some i⟩, none)) := by
  simp only [hit_current_player, h, hdraw]

/-! ### Claim C5 -/

/-- C5: the turn cursor.  After construction the cursor is at player 0; a
completed `stand_current_player` moves the cursor from `i` to `i + 1`, or to
`Ended` (`none`) exactly when player `i` is the last player (a stand whose
dealer automation raises leaves the cursor in place); `hit_current_player`
keeps the cursor at `i` when the player does not bust and otherwise advances
it exactly like a stand; both moves preserve the player list's length.  The
cursor therefore only ever moves forward one position at a time — each
player becomes current exactly once, in construction order, and the game
ends exactly when the last player's turn concludes. -/
theorem c5_turn_cursor (names : List String) (deck0 : List Card)
    (s0 s : GameState) (i : Nat)
    (hinit : blackjack_init names deck0 = .ok s0)
    (hcur : s.currentIdx = some i) :
    s0.currentIdx = some 0
    ∧ ((stand_current_player s).2 = none →
        (stand_current_player s).1.currentIdx
          = if i = s.players.length - 1 then none else some (i + 1))
    ∧ ((stand_current_player s).2 ≠ none →
        (stand_current_player s).1.currentIdx = some i)
    ∧ (stand_current_player s).1.players.length = s.players.length
    ∧ (hit_current_player s).1.players.length = s.players.length
    ∧ (∀ c deck', draw_card s.deck = .ok (c, deck') →
        (((s.players.getD i dummy_player).hit c).is_bust = false →
          (hit_current_player s).1.currentIdx = some i
          ∧ (hit_current_player s).2 = none)
        ∧ (((s.players.getD i dummy_player).hit c).is_bust = true →
          ((hit_current_player s).2 = none →
            (hit_current_player s).1.currentIdx
              = if i = s.players.length - 1 then none else some (i + 1))
          ∧ ((hit_current_player s).2 ≠ none →
            (hit_current_player s).1.currentIdx = some i)))
    ∧ (s.deck = [] → hit_current_player s = (s, some .indexError)) := by
  have hstand : stand_current_player s = next_player s := by
    simp only [stand_current_player, hcur]
  obtain ⟨hnp1, hnp2, hnp3⟩ := next_player_cases s i hcur
  refine ⟨(blackjack_init_ok names deck0 s0 hinit).1, ?_, ?_, ?_, ?_, ?_, ?_⟩
  · rw [hstand]
    exact hnp2
  · rw [hstand]
    exact hnp3
  · rw [hstand, hnp1]
  · rcases hdraw : draw_card s.deck with e | ⟨c, deck'⟩
    · simp only [hit_current_player, hcur, hdraw]
    · rw [hit_cases s i c deck' hcur hdraw]
      by_cases hb : ((s.players.getD i dummy_player).hit c).is_bust
      · simp only [hb, if_true]
        have := (next_player_cases
          ⟨s.players.set i ((s.players.getD i dummy_player).hit c),
           s.dealer, deck', some i⟩ i rfl).1
        rw [this]
        exact List.length_set s.players i _
      · simp only [hb, Bool.false_eq_true, if_false]
        exact List.length_set s.players i _
  · intro c deck' hdraw
    rw [hit_cases s i c deck' hcur hdraw]
    set s' : GameState :=
      ⟨s.players.set i ((s.players.getD i dummy_player).hit c),
       s.dealer, deck', some i⟩ with hs'
    have hlen : s'.players.length = s.players.length := List.length_set s.players i _
    obtain ⟨hq1, hq2, hq3⟩ := next_player_cases s' i rfl
    constructor
    · intro hb
      rw [hb]
      simp
    · intro hb
      simp only [hb, if_true]
      constructor
      · intro hnone
        rw [hq2 hnone, hlen]
      · exact hq3
  · intro hdeck
    simp [hit_current_player, hcur, draw_card, hdeck]

/-- The six-card deck used by the C5 witness game. -/
def c5w_deck : List Card :=
  [mk_card .TWO, mk_card .THREE, mk_card .FOUR, mk_card .FIVE,
   mk_card .SIX, mk_card .SEVEN]

/-- The state `BlackJack(["a", "b"], c5w_deck)` constructs. -/
def c5w_state : GameState :=
  ⟨[⟨"a", [mk_card .SEVEN, mk_card .SIX]⟩, ⟨"b", [mk_card .FIVE, mk_card .FOUR]⟩],
   ⟨"Dealer", [mk_card .THREE, mk_card .TWO]⟩, [], some 0⟩

/-- Witness for C5: in a concrete two-player game, a stand by player 0 moves
the cursor to player 1. -/
theorem c5_turn_cursor_witness :
    (stand_current_player c5w_state).1.currentIdx = some 1 := by
  have h :=
    (c5_turn_cursor ["a", "b"] c5w_deck c5w_state c5w_state 0 rfl rfl).2.1 rfl
  simpa using h

/-! ### Claim C9 -/

/-- The states a `BlackJack` object can be in: freshly constructed, or the
result of a hit or a stand on a reachable state. -/
inductive Reachable : GameState → Prop where
  | init : ∀ (names : List String) (deck : List Card) (s : GameState),
      blackjack_init names deck = .ok s → Reachable s
  | hit : ∀ s, Reachable s → Reachable (hit_current_player s).1
  | stand : ∀ s, Reachable s → Reachable (stand_current_player s).1

theorem hit_players_extend (s : GameState) :
    ∀ q ∈ (hit_current_player s).1.players,
      ∃ p ∈ s.players, ∃ t, q.hand = p.hand ++ t := by
  intro q hq
  rcases hcur : s.currentIdx with _ | i
  · simp only [hit_current_player, hcur] at hq
    exact ⟨q, hq, [], by simp⟩
  · rcases hdraw : draw_card s.deck with e | ⟨c, deck'⟩
    · simp only [hit_current_player, hcur, hdraw] at hq
      exact ⟨q, hq, [], by simp⟩
    · rw [hit_cases s i c deck' hcur hdraw] at hq
      by_cases hi : i < s.players.length
      · have hmem :
            q ∈ s.players.set i ((s.players.getD i dummy_player).hit c) := by
          by_cases hb : ((s.players.getD i dummy_player).hit c).is_bust
          · rw [if_pos hb] at hq
            rwa [(next_player_cases
              ⟨s.players.set i ((s.players.getD i dummy_player).hit c),
               s.dealer, deck', some i⟩ i rfl).1] at hq
          · rw [if_neg hb] at hq
            exact hq
        rcases List.mem_or_eq_of_mem_set hmem with hmem | hmem
        · exact ⟨q, hmem, [], by simp⟩
        · refine ⟨s.players.getD i dummy_player, ?_, [c], by
            simp [hmem, Player.hit]⟩
          simp [List.getD, List.getElem?_eq_getElem hi]
      · have hset : s.players.set i ((s.players.getD i dummy_player).hit c)
            = s.players :=
          List.set_eq_of_length_le (Nat.le_of_not_lt hi)
        by_cases hb : ((s.players.getD i dummy_player).hit c).is_bust
        · rw [if_pos hb] at hq
          rw [(next_player_cases
            ⟨s.players.set i ((s.players.getD i dummy_player).hit c),
             s.dealer, deck', some i⟩ i rfl).1] at hq
          rw [hset] at hq
          exact ⟨q, hq, [], by simp⟩
        · rw [if_neg hb] at hq
          rw [hset] at hq
          exact ⟨q, hq, [], by simp⟩

theorem stand_players_eq (s : GameState) :
    (stand_current_player s).1.players = s.players := by
  rcases hcur : s.currentIdx with _ | i
  · simp [stand_current_player, hcur]
  · simp only [stand_current_player, hcur]
    exact (next_player_cases s i hcur).1

theorem next_player_dealer_extend (s : GameState) :
    ∃ t, (next_player s).1.dealer.hand = s.dealer.hand ++ t := by
  rcases hcur : s.currentIdx with _ | i
  · exact ⟨[], by simp [next_player, hcur]⟩
  · simp only [next_player, hcur]
    by_cases hlast : i = s.players.length - 1
    · obtain ⟨⟨t, ht⟩, _, _, _⟩ := dealer_loop_spec s.deck.reverse s.dealer.hand
      refine ⟨t, ?_⟩
      rcases hplay : (play_dealers_turn s.dealer.hand s.deck).2.2 with _ | e <;>
        simpa [hlast, hplay, play_dealers_turn] using ht
    · exact ⟨[], by simp [hlast]⟩

theorem stand_dealer_extend (s : GameState) :
    ∃ t, (stand_current_player s).1.dealer.hand = s.dealer.hand ++ t := by
  rcases hcur : s.currentIdx with _ | i
  · exact ⟨[], by simp [stand_current_player, hcur]⟩
  · simp only [stand_current_player, hcur]
    exact next_player_dealer_extend s

theorem hit_dealer_extend (s : GameState) :
    ∃ t, (hit_current_player s).1.dealer.hand = s.dealer.hand ++ t := by
  rcases hcur : s.currentIdx with _ | i
  · exact ⟨[], by simp [hit_current_player, hcur]⟩
  · rcases hdraw : draw_card s.deck with e | ⟨c, deck'⟩
    · exact ⟨[], by simp [hit_current_player, hcur, hdraw]⟩
    · rw [hit_cases s i c deck' hcur hdraw]
      by_cases hb : ((s.players.getD i dummy_player).hit c).is_bust
      · rw [if_pos hb]
        exact next_player_dealer_extend _
      · exact ⟨[], by rw [if_neg hb]; simp⟩

theorem reachable_hands (s : GameState) (h : Reachable s) :
    (∀ p ∈ s.players, 2 ≤ p.hand.length) ∧ 2 ≤ s.dealer.hand.length := by
  induction h with
  | init names deck s hinit =>
    obtain ⟨_, hp, hd, _⟩ := blackjack_init_ok names deck s hinit
    exact ⟨fun p hp' => (hp p hp').symm.le, hd.symm.le⟩
  | hit s _ ih =>
    constructor
    · intro q hq
      obtain ⟨p, hp, t, ht⟩ := hit_players_extend s q hq
      calc 2 ≤ p.hand.length := ih.1 p hp
        _ ≤ q.hand.length := by simp [ht]
    · obtain ⟨t, ht⟩ := hit_dealer_extend s
      calc 2 ≤ s.dealer.hand.length := ih.2
        _ ≤ _ := by simp [ht]
  | stand s _ ih =>
    constructor
    · intro q hq
      rw [stand_players_eq s] at hq
      exact ih.1 q hq
    · obtain ⟨t, ht⟩ := stand_dealer_extend s
      calc 2 ≤ s.dealer.hand.length := ih.2
        _ ≤ _ := by simp [ht]

/-- C9: hand invariants.  Every reachable state gives every player and the
dealer a hand of at least 2 cards; construction deals exactly 2 cards to
each participant (hands are empty only before that deal); a hit appends to
hands (exactly one card — the drawn one — to the current player's hand), a
stand never touches player hands, and the dealer's hand only ever grows:
no operation removes a card. -/
theorem c9_hand_invariants :
    (∀ s, Reachable s →
      (∀ p ∈ s.players, 2 ≤ p.hand.length) ∧ 2 ≤ s.dealer.hand.length)
    ∧ (∀ names deck s, blackjack_init names deck = .ok s →
        (∀ p ∈ s.players, p.hand.length = 2) ∧ s.dealer.hand.length = 2)
    ∧ (∀ s, ∀ q ∈ (hit_current_player s).1.players,
        ∃ p ∈ s.players, ∃ t, q.hand = p.hand ++ t)
    ∧ (∀ s, (stand_current_player s).1.players = s.players)
    ∧ (∀ s, ∃ t, (hit_current_player s).1.dealer.hand = s.dealer.hand ++ t)
    ∧ (∀ s, ∃ t, (stand_current_player s).1.dealer.hand = s.dealer.hand ++ t)
    ∧ (∀ s i c deck', s.currentIdx = some i → i < s.players.length →
        draw_card s.deck = .ok (c, deck') →
        ((hit_current_player s).1.players.getD i dummy_player).hand
          = (s.players.getD i dummy_player).hand ++ [c]) := by
  refine ⟨reachable_hands,
    fun names deck s h =>
      ⟨(blackjack_init_ok names deck s h).2.1, (blackjack_init_ok names deck s h).2.2.1⟩,
    hit_players_extend, stand_players_eq, hit_dealer_extend, stand_dealer_extend,
    ?_⟩
  intro s i c deck' hcur hi hdraw
  rw [hit_cases s i c deck' hcur hdraw]
  have hplayers :
      (if ((s.players.getD i dummy_player).hit c).is_bust then
          next_player
            ⟨s.players.set i ((s.players.getD i dummy_player).hit c),
             s.dealer, deck', some i⟩
        else
          (⟨s.players.set i ((s.players.getD i dummy_player).hit c),
            s.dealer, deck', some i⟩, none)).1.players
      = s.players.set i ((s.players.getD i dummy_player).hit c) := by
    by_cases hb : ((s.players.getD i dummy_player).hit c).is_bust
    · rw [if_pos hb]
      exact (next_player_cases
        ⟨s.players.set i ((s.players.getD i dummy_player).hit c),
         s.dealer, deck', some i⟩ i rfl).1
    · rw [if_neg hb]
  rw [hplayers]
  have : (s.players.set i ((s.players.getD i dummy_player).hit c)).getD i
      dummy_player = (s.players.getD i dummy_player).hit c := by
    simp [List.getD, List.getElem?_set_eq_of_lt _ hi]
  rw [this]
  rfl

/-- The four-card deck for the C9 witness game. -/
def c9w_deck : List Card :=
  [mk_card .TWO, mk_card .THREE, mk_card .FOUR, mk_card .FIVE]

/-- The state `BlackJack(["a"], c9w_deck)` constructs. -/
def c9w_init : GameState :=
  ⟨[⟨"a", [mk_card .FIVE, mk_card .FOUR]⟩],
   ⟨"Dealer", [mk_card .THREE, mk_card .TWO]⟩, [], some 0⟩

/-- A mid-game state with one card left in the deck, used to witness the
one-card-per-hit clause of C9. -/
def c9w_state : GameState :=
  ⟨[⟨"a", [mk_card .SEVEN, mk_card .SIX]⟩, ⟨"b", [mk_card .FIVE, mk_card .FOUR]⟩],
   ⟨"Dealer", [mk_card .THREE, mk_card .TWO]⟩, [mk_card .TWO], some 0⟩

/-- Witness for C9: the constructed dealer hand has exactly 2 cards, and a
concrete hit appends exactly the drawn card to the current player's hand. -/
theorem c9_hand_invariants_witness :
    c9w_init.dealer.hand.length = 2
    ∧ ((hit_current_player c9w_state).1.players.getD 0 dummy_player).hand
        = (c9w_state.players.getD 0 dummy_player).hand ++ [mk_card .TWO] :=
  ⟨(c9_hand_invariants.2.1 ["a"] c9w_deck c9w_init rfl).2,
   c9_hand_invariants.2.2.2.2.2.2 c9w_state 0 (mk_card .TWO) [] rfl (by decide) rfl⟩

/-! ### Claim C10 -/

theorem dictGet_dictSet {α : Type} (d : List (String × α)) (k key : String)
    (v : α) :
    dictGet (dictSet d k v) key = if k = key then some v else dictGet d key := by
  induction d with
  | nil => by_cases hkey : k = key <;> simp [dictSet, dictGet, hkey]
  | cons kv rest ih =>
    obtain ⟨k', v'⟩ := kv
    by_cases hk : k' = k
    · subst hk
      by_cases hkey : k' = key <;> simp [dictSet, dictGet, hkey]
    · by_cases hkey : k' = key
      · subst hkey
        have hk3 : ¬ k = k' := fun h => hk h.symm
        simp [dictSet, dictGet, hk, hk3]
      · simp [dictSet, dictGet, hk, hkey, ih]

theorem build_dict_lookup {α : Type} (f : Player → α) :
    ∀ (ps : List Player) (acc : List (String × α)) (name : String),
      dictGet (ps.foldl (fun d p => dictSet d p.name (f p)) acc) name
        = match ps.reverse.find? (fun p => p.name == name) with
          | some p => some (f p)
          | none => dictGet acc name := by
  intro ps
  induction ps with
  | nil =>
    intro acc name
    rfl
  | cons p rest ih =>
    intro acc name
    have hfold :
        ((p :: rest).foldl (fun d q => dictSet d q.name (f q)) acc)
          = rest.foldl (fun d q => dictSet d q.name (f q))
              (dictSet acc p.name (f p)) := rfl
    rw [hfold, ih]
    have hrev : (p :: rest).reverse = rest.reverse ++ [p] := by simp
    rw [hrev, List.find?_append]
    rcases hfind : rest.reverse.find? (fun q => q.name == name) with _ | q
    · rw [hfind]
      simp only [Option.none_or]
      by_cases hname : p.name = name
      · simp [List.find?, hname, dictGet_dictSet]
      · have : (p.name == name) = false := by simp [hname]
        simp [List.find?, this, dictGet_dictSet, hname]
    · simp [hfind]

theorem result_fold_lookup (dealer : Player) :
    ∀ (ps : List Player) (acc m : List (String × String)) (name : String),
      result_fold dealer ps acc = .ok m →
      dictGet m name
        = match ps.reverse.find? (fun p => p.name == name) with
          | some p => (player_result p dealer).toOption
          | none => dictGet acc name := by
  intro ps
  induction ps with
  | nil =>
    intro acc m name h
    have h' : (Except.ok acc : Except PyErr (List (String × String))) = .ok m := h
    cases h'
    rfl
  | cons p rest ih =>
    intro acc m name h
    unfold result_fold at h
    split at h
    · simp at h
    · next r hr =>
      rw [ih _ m name h]
      have hrev : (p :: rest).reverse = rest.reverse ++ [p] := by simp
      rw [hrev, List.find?_append]
      rcases hfind : rest.reverse.find? (fun q => q.name == name) with _ | q
      · rw [hfind]
        simp only [Option.none_or]
        by_cases hname : p.name = name
        · simp [List.find?, hname, dictGet_dictSet, hr, Except.toOption]
        · have : (p.name == name) = false := by simp [hname]
          simp [List.find?, this, dictGet_dictSet, hname]
      · simp [hfind]

/-- The six-card deck of the C10 game: two players both named `p`; the first
is dealt `[TWO, THREE]` (total 5), the second `[KING, JACK]` (total 20), the
dealer `[KING, NINE]` (total 19, so the automation draws nothing). -/
def c10_deck : List Card :=
  [mk_card .NINE, mk_card .KING, mk_card .JACK, mk_card .KING,
   mk_card .THREE, mk_card .TWO]

/-- C10: duplicate player names.  Construction with the duplicate name list
`["p", "p"]` succeeds, both players are dealt distinct hands and play
separate turns (the run below stands twice, once per player), and the first
player's own outcome is `LOST` while the second's is `WON`; yet
`get_game_result` and `get_game_state` key their dicts by name, so the
reported entries collapse to one per name — in general a lookup returns the
data of the *last* player bearing that name (the general dict-collapse laws
are the second and third conjuncts), and in the run the single `"p"` entry
shows the second player's hand and `WON`. -/
theorem c10_duplicate_name_collapse :
    ((blackjack_init ["p", "p"] c10_deck).map
        (fun s0 =>
          let s2 := (stand_current_player (stand_current_player s0).1).1
          (get_game_result s2, (get_game_state s2).players,
           s2.players.map (fun p => p.hand),
           player_result (s2.players.getD 0 dummy_player) s2.dealer))
      = .ok (.ok [("p", "WON")],
             [("p", ([mk_card .KING, mk_card .JACK], false))],
             [[mk_card .TWO, mk_card .THREE], [mk_card .KING, mk_card .JACK]],
             .ok "LOST"))
    ∧ (∀ (ps : List Player) (name : String),
        dictGet (build_players_dict ps) name
          = match ps.reverse.find? (fun p => p.name == name) with
            | some p => some (p.hand, p.is_bust)
            | none => none)
    ∧ (∀ (dealer : Player) (ps : List Player) (m : List (String × String))
          (name : String),
        result_fold dealer ps [] = .ok m →
        dictGet m name
          = match ps.reverse.find? (fun p => p.name == name) with
            | some p => (player_result p dealer).toOption
            | none => none) := by
  refine ⟨rfl, ?_, ?_⟩
  · intro ps name
    have h := build_dict_lookup (fun p => (p.hand, p.is_bust)) ps [] name
    rw [build_players_dict, h]
    rcases hfind : ps.reverse.find? (fun q => q.name == name) with _ | q <;> rfl
  · intro dealer ps m name h
    rw [result_fold_lookup dealer ps [] m name h]
    rcases hfind : ps.reverse.find? (fun q => q.name == name) with _ | q <;> rfl

/-- Witness for C10's general collapse laws at a concrete two-player list
with a shared name. -/
theorem c10_duplicate_name_collapse_witness :
    dictGet (build_players_dict
        [⟨"p", [mk_card .TWO, mk_card .THREE]⟩,
         ⟨"p", [mk_card .KING, mk_card .JACK]⟩]) "p"
      = match
          [Player.mk "p" [mk_card .TWO, mk_card .THREE],
           Player.mk "p" [mk_card .KING, mk_card .JACK]].reverse.find?
            (fun p => p.name == "p") with
        | some p => some (p.hand, p.is_bust)
        | none => none :=
  c10_duplicate_name_collapse.2.1
    [⟨"p", [mk_card .TWO, mk_card .THREE]⟩, ⟨"p", [mk_card .KING, mk_card .JACK]⟩]
    "p"
